import Mathlib

/-!
Shallow embedding of the core of the `sbak` content-addressed backup engine
(`src/core/{hash,entry,repo,scan,extend,ignore}.rs` and
`src/core/ignore/{pattern.rs,pattern/parser.rs}`), together with proofs about
the embedded operations.

Machine integers are modelled as `Nat` with explicit reduction modulo `2^64`
where the Rust code relies on 64-bit wrap-around (the Keccak permutation);
bytes are `Nat` values below 256; fallible Rust functions return `Option` or
`Except`.
-/

namespace Sbak

/-! ## SHA3-256 (the `sha3::Sha3_256` digest used by `core/hash.rs`)

`hash::hash` and `hash::hash_reader` feed the input bytes through a SHA3-256
sponge and hex-encode the 32-byte digest in lowercase.  The Keccak-f[1600]
permutation is implemented here directly on `Nat` lanes reduced mod `2^64`.
-/

/-- Modulus for 64-bit lanes. -/
def U64MOD : Nat := 18446744073709551616

/-- Rotate a 64-bit lane left by `n` bits (0 ≤ n < 64). -/
def rotl64 (x n : Nat) : Nat :=
  ((x <<< n) % U64MOD) ||| (x >>> (64 - n))

/-- Bitwise complement of a 64-bit lane. -/
def comp64 (x : Nat) : Nat := 18446744073709551615 ^^^ x

/-- The 24 Keccak round constants. -/
def keccakRC : List Nat :=
  [0x0000000000000001, 0x0000000000008082, 0x800000000000808a, 0x8000000080008000,
   0x000000000000808b, 0x0000000080000001, 0x8000000080008081, 0x8000000000008009,
   0x000000000000008a, 0x0000000000000088, 0x0000000080008009, 0x000000008000000a,
   0x000000008000808b, 0x800000000000008b, 0x8000000000008089, 0x8000000000008003,
   0x8000000000008002, 0x8000000000000080, 0x000000000000800a, 0x800000008000000a,
   0x8000000080008081, 0x8000000000008080, 0x0000000080000001, 0x8000000080008008]

/-- Source-lane index of the combined ρ∘π step, for each target lane. -/
def piSrc : List Nat :=
  [0, 6, 12, 18, 24, 3, 9, 10, 16, 22, 1, 7, 13, 19, 20, 4, 5, 11, 17, 23, 2, 8, 14, 15, 21]

/-- Rotation amount of the combined ρ∘π step, for each target lane. -/
def piRot : List Nat :=
  [0, 44, 43, 21, 14, 28, 20, 3, 45, 61, 1, 6, 25, 8, 18, 27, 36, 10, 15, 56, 62, 55, 39, 41, 2]

/-- Lane `A[x,y]` of a 25-lane Keccak state. -/
def lane (s : List Nat) (x y : Nat) : Nat := s.getD (x + 5 * y) 0

/-- The θ step of Keccak-f. -/
def theta (s : List Nat) : List Nat :=
  let c := fun x => lane s x 0 ^^^ lane s x 1 ^^^ lane s x 2 ^^^ lane s x 3 ^^^ lane s x 4
  let d := fun x => c ((x + 4) % 5) ^^^ rotl64 (c ((x + 1) % 5)) 1
  (List.range 25).map (fun i => s.getD i 0 ^^^ d (i % 5))

/-- The combined ρ and π steps of Keccak-f. -/
def rhoPi (s : List Nat) : List Nat :=
  (List.range 25).map (fun i => rotl64 (s.getD (piSrc.getD i 0) 0) (piRot.getD i 0))

/-- The χ step of Keccak-f. -/
def chi (s : List Nat) : List Nat :=
  (List.range 25).map (fun i =>
    let x := i % 5
    let y := i / 5
    lane s x y ^^^ (comp64 (lane s ((x + 1) % 5) y) &&& lane s ((x + 2) % 5) y))

/-- The ι step of Keccak-f: xor the round constant into lane 0. -/
def iotaStep (s : List Nat) (rc : Nat) : List Nat :=
  match s with
  | [] => []
  | a :: rest => (a ^^^ rc) :: rest

/-- The full 24-round Keccak-f[1600] permutation. -/
def keccakF (s : List Nat) : List Nat :=
  keccakRC.foldl (fun st rc => iotaStep (chi (rhoPi (theta st))) rc) s

/-- Interpret up to eight bytes as one little-endian 64-bit lane. -/
def bytesToLane (bs : List Nat) : Nat := bs.foldr (fun b acc => acc * 256 + b) 0

/-- Absorb one 136-byte rate block into the sponge state and permute. -/
def absorbBlock (s : List Nat) (block : List Nat) : List Nat :=
  keccakF ((List.range 25).map (fun i => s.getD i 0 ^^^ bytesToLane ((block.drop (8 * i)).take 8)))

/-- Absorb `n` consecutive 136-byte blocks of `msg`. -/
def absorbBlocks : Nat → List Nat → List Nat → List Nat
  | 0, s, _ => s
  | n + 1, s, msg => absorbBlocks n (absorbBlock s (msg.take 136)) (msg.drop 136)

/-- SHA3 `pad10*1` padding with the 0x06 domain byte, to a multiple of 136 bytes. -/
def sha3pad (msg : List Nat) : List Nat :=
  let m := msg.length % 136
  if m = 135 then msg ++ [0x86]
  else msg ++ [0x06] ++ List.replicate (135 - m - 1) 0 ++ [0x80]

/-- SHA3-256 digest of a byte sequence, as 32 bytes. -/
def sha3Bytes (msg : List Nat) : List Nat :=
  let p := sha3pad msg
  let s := absorbBlocks (p.length / 136) (List.replicate 25 0) p
  (List.range 32).map (fun i => (s.getD (i / 8) 0 >>> (8 * (i % 8))) % 256)

/-- Lowercase hexadecimal digit for a value below 16 (`hex::encode`). -/
def hexChar (n : Nat) : Char := if n < 10 then Char.ofNat (48 + n) else Char.ofNat (87 + n)

/-- Lowercase-hex SHA3-256 of a byte sequence: the 64-character `HashID` string
computed by `hash::hash` / `hash::hash_reader`. -/
def sha3hex (msg : List Nat) : String :=
  ⟨(sha3Bytes msg).foldr (fun b acc => hexChar (b / 16) :: hexChar (b % 16) :: acc) []⟩

/-! ## Rust `derive(Ord)` comparison machinery

Rust derives `Ord` for the entry types: fields are compared lexicographically
in declaration order, enum variants by declaration order with payloads compared
when the variants agree, `String` byte-lexicographically (equivalently, by
code point, since UTF-8 preserves code-point order), `Vec` lexicographically
with the shorter prefix first.
-/

/-- Comparison of natural numbers (Rust `u64::cmp`). -/
def compareNat (a b : Nat) : Ordering :=
  if a < b then .lt else if b < a then .gt else .eq

/-- Comparison of booleans (Rust `bool::cmp`, `false < true`). -/
def compareBool : Bool → Bool → Ordering
  | false, true => .lt
  | true, false => .gt
  | _, _ => .eq

/-- Comparison of characters by code point (agrees with Rust's byte order on UTF-8). -/
def compareChar (a b : Char) : Ordering := compareNat a.toNat b.toNat

/-- Lexicographic comparison of lists (Rust slice/`Vec` ordering). -/
def compareListBy (cmp : α → α → Ordering) : List α → List α → Ordering
  | [], [] => .eq
  | [], _ :: _ => .lt
  | _ :: _, [] => .gt
  | a :: as, b :: bs => (cmp a b).then (compareListBy cmp as bs)

/-- Comparison of strings (Rust `String::cmp`). -/
def compareString (a b : String) : Ordering := compareListBy compareChar a.data b.data

/-- Lexicographic comparison of a pair by its components. -/
def prodCmp (c1 : α → α → Ordering) (c2 : β → β → Ordering) (x y : α × β) : Ordering :=
  (c1 x.1 y.1).then (c2 x.2 y.2)

/-- Bundle of the laws a Rust `derive(Ord)` comparison satisfies. -/
structure IsLinCmp (cmp : α → α → Ordering) : Prop where
  eq_imp : ∀ {a b : α}, cmp a b = .eq → a = b
  refl : ∀ a : α, cmp a a = .eq
  swap : ∀ a b : α, cmp b a = (cmp a b).swap
  lt_trans : ∀ {a b c : α}, cmp a b = .lt → cmp b c = .lt → cmp a c = .lt

theorem then_eq_iff {o1 o2 : Ordering} : o1.then o2 = .eq ↔ o1 = .eq ∧ o2 = .eq := by
  cases o1 <;> cases o2 <;> simp [Ordering.then]

theorem then_lt_iff {o1 o2 : Ordering} :
    o1.then o2 = .lt ↔ o1 = .lt ∨ (o1 = .eq ∧ o2 = .lt) := by
  cases o1 <;> cases o2 <;> simp [Ordering.then]

theorem then_swap (o1 o2 : Ordering) : (o1.then o2).swap = o1.swap.then o2.swap := by
  cases o1 <;> cases o2 <;> simp [Ordering.then, Ordering.swap]

theorem compareNat_lt_iff {a b : Nat} : compareNat a b = .lt ↔ a < b := by
  unfold compareNat
  by_cases h : a < b
  · simp [h]
  · by_cases h2 : b < a <;> simp [h, h2]

theorem compareNat_eq_iff {a b : Nat} : compareNat a b = .eq ↔ a = b := by
  unfold compareNat
  by_cases h : a < b
  · simp [h]; omega
  · by_cases h2 : b < a <;> simp [h, h2] <;> omega

theorem isLinCmp_nat : IsLinCmp compareNat := by
  constructor
  · intro a b h; exact compareNat_eq_iff.mp h
  · intro a; exact compareNat_eq_iff.mpr rfl
  · intro a b
    rcases Nat.lt_trichotomy a b with h | h | h
    · have h1 : compareNat a b = .lt := compareNat_lt_iff.mpr h
      have h2 : compareNat b a = .gt := by
        unfold compareNat; rw [if_neg (by omega), if_pos h]
      rw [h1, h2]; rfl
    · subst h
      have h1 : compareNat a a = .eq := compareNat_eq_iff.mpr rfl
      rw [h1]; rfl
    · have h1 : compareNat b a = .lt := compareNat_lt_iff.mpr h
      have h2 : compareNat a b = .gt := by
        unfold compareNat; rw [if_neg (by omega), if_pos h]
      rw [h1, h2]; rfl
  · intro a b c h1 h2
    exact compareNat_lt_iff.mpr (Nat.lt_trans (compareNat_lt_iff.mp h1) (compareNat_lt_iff.mp h2))

theorem isLinCmp_bool : IsLinCmp compareBool := by
  constructor
  · intro a b; cases a <;> cases b <;> simp [compareBool]
  · intro a; cases a <;> rfl
  · intro a b; cases a <;> cases b <;> rfl
  · intro a b c h1 h2; cases a <;> cases b <;> cases c <;> simp_all [compareBool]

/-- Transport an `IsLinCmp` along an injective key function. -/
theorem IsLinCmp.comap {cmp : α → α → Ordering} (h : IsLinCmp cmp) (f : γ → α)
    (hf : ∀ {x y : γ}, f x = f y → x = y) :
    IsLinCmp (fun x y => cmp (f x) (f y)) := by
  constructor
  · intro a b hab; exact hf (h.eq_imp hab)
  · intro a; exact h.refl (f a)
  · intro a b; exact h.swap (f a) (f b)
  · intro a b c h1 h2; exact h.lt_trans h1 h2

theorem isLinCmp_prod {c1 : α → α → Ordering} {c2 : β → β → Ordering}
    (h1 : IsLinCmp c1) (h2 : IsLinCmp c2) : IsLinCmp (prodCmp c1 c2) := by
  constructor
  · intro a b hab
    rcases then_eq_iff.mp hab with ⟨ha, hb⟩
    exact Prod.ext (h1.eq_imp ha) (h2.eq_imp hb)
  · intro a; unfold prodCmp; rw [h1.refl, h2.refl]; rfl
  · intro a b; unfold prodCmp; rw [then_swap, h1.swap, h2.swap]
  · intro a b c hab hbc
    unfold prodCmp at *
    rcases then_lt_iff.mp hab with ha | ⟨ha, ha2⟩ <;> rcases then_lt_iff.mp hbc with hb | ⟨hb, hb2⟩
    · exact then_lt_iff.mpr (.inl (h1.lt_trans ha hb))
    · rw [h1.eq_imp hb] at ha; exact then_lt_iff.mpr (.inl ha)
    · rw [← h1.eq_imp ha] at hb; exact then_lt_iff.mpr (.inl hb)
    · rw [h1.eq_imp ha, h1.eq_imp hb, h1.refl]
      exact then_lt_iff.mpr (.inr ⟨rfl, h2.lt_trans ha2 hb2⟩)

theorem isLinCmp_char : IsLinCmp compareChar := by
  refine isLinCmp_nat.comap Char.toNat ?_
  intro x y h
  apply Char.ext
  apply UInt32.ext
  simpa [Char.toNat, UInt32.toNat] using h

theorem isLinCmp_list {cmp : α → α → Ordering} (hc : IsLinCmp cmp) :
    IsLinCmp (compareListBy cmp) := by
  constructor
  · intro as
    induction as with
    | nil => intro bs h; cases bs with
      | nil => rfl
      | cons b tl => simp [compareListBy] at h
    | cons a tl ih =>
      intro bs h
      cases bs with
      | nil => simp [compareListBy] at h
      | cons b btl =>
        rcases then_eq_iff.mp h with ⟨h1, h2⟩
        rw [hc.eq_imp h1, ih h2]
  · intro as
    induction as with
    | nil => rfl
    | cons a tl ih =>
      show (cmp a a).then (compareListBy cmp tl tl) = .eq
      rw [hc.refl a, ih]
      rfl
  · intro as
    induction as with
    | nil => intro bs; cases bs <;> rfl
    | cons a tl ih =>
      intro bs
      cases bs with
      | nil => rfl
      | cons b btl =>
        show (cmp b a).then (compareListBy cmp btl tl) =
          ((cmp a b).then (compareListBy cmp tl btl)).swap
        rw [then_swap, ← hc.swap a b, ← ih btl]
  · intro as
    induction as with
    | nil =>
      intro bs cs h1 h2
      cases bs with
      | nil => cases h1
      | cons b btl =>
        cases cs with
        | nil => cases h2
        | cons c ctl => rfl
    | cons a tl ih =>
      intro bs cs h1 h2
      cases bs with
      | nil => cases h1
      | cons b btl =>
        cases cs with
        | nil => cases h2
        | cons c ctl =>
          rcases then_lt_iff.mp h1 with ha | ⟨ha, ha2⟩ <;>
            rcases then_lt_iff.mp h2 with hb | ⟨hb, hb2⟩
          · exact then_lt_iff.mpr (.inl (hc.lt_trans ha hb))
          · rw [hc.eq_imp hb] at ha; exact then_lt_iff.mpr (.inl ha)
          · rw [← hc.eq_imp ha] at hb; exact then_lt_iff.mpr (.inl hb)
          · obtain rfl : a = b := hc.eq_imp ha
            obtain rfl : a = c := hc.eq_imp hb
            show (cmp a a).then (compareListBy cmp tl ctl) = .lt
            rw [hc.refl a, ih ha2 hb2]
            rfl

theorem isLinCmp_string : IsLinCmp compareString := by
  refine (isLinCmp_list isLinCmp_char).comap String.data ?_
  intro x y h
  cases x; cases y; exact congrArg String.mk h

/-- The boolean `le` induced by an `Ordering`-valued comparison, as used by a
stable sort by `Ord::cmp`. -/
def leOf (cmp : α → α → Ordering) (a b : α) : Bool :=
  match cmp a b with
  | .gt => false
  | _ => true

theorem leOf_of_lt {cmp : α → α → Ordering} {a b : α} (h : cmp a b = .lt) :
    leOf cmp a b = true := by unfold leOf; rw [h]

theorem leOf_of_eq {cmp : α → α → Ordering} {a b : α} (h : cmp a b = .eq) :
    leOf cmp a b = true := by unfold leOf; rw [h]

theorem leOf_trans {cmp : α → α → Ordering} (h : IsLinCmp cmp) :
    ∀ a b c, leOf cmp a b = true → leOf cmp b c = true → leOf cmp a c = true := by
  intro a b c h1 h2
  unfold leOf at *
  cases hab : cmp a b with
  | gt => rw [hab] at h1; cases h1
  | eq => rw [h.eq_imp hab]; exact h2
  | lt =>
    cases hbc : cmp b c with
    | gt => rw [hbc] at h2; cases h2
    | eq => rw [← h.eq_imp hbc, hab]
    | lt => rw [h.lt_trans hab hbc]

theorem leOf_total {cmp : α → α → Ordering} (h : IsLinCmp cmp) :
    ∀ a b, (leOf cmp a b || leOf cmp b a) = true := by
  intro a b
  unfold leOf
  cases hab : cmp a b with
  | gt =>
    have := h.swap a b
    rw [hab] at this
    rw [this]
    rfl
  | eq => rfl
  | lt => rfl

theorem leOf_antisymm {cmp : α → α → Ordering} (h : IsLinCmp cmp) :
    ∀ a b, leOf cmp a b = true → leOf cmp b a = true → a = b := by
  intro a b h1 h2
  unfold leOf at *
  cases hab : cmp a b with
  | gt => rw [hab] at h1; cases h1
  | eq => exact h.eq_imp hab
  | lt =>
    have := h.swap a b
    rw [hab] at this
    rw [this] at h2
    cases h2

end Sbak

namespace Sbak

/-! ## The entry model (`core/entry.rs`)

`Timestamp` (`core/timestamp.rs`) is a `u64` count of seconds since the Unix
epoch, modelled as `Nat`.  `HashID` (`core/hash.rs`) is a newtype over the
lowercase-hex digest string, modelled as `String`.
-/

/-- Timestamp in whole seconds since the Unix epoch (`Timestamp(u64)`). -/
abbrev Timestamp := Nat

/-- Hash id: the lowercase hexadecimal SHA3-256 string (`HashID(String)`). -/
abbrev HashID := String

/-- Attributes of a file-system entry (`struct Attributes`), with derived
`Ord` comparing `(name, readonly, modified)` lexicographically. -/
structure Attributes where
  name : String
  readonly : Bool
  modified : Timestamp
deriving DecidableEq

/-- Key of the derived `Ord` of `Attributes`: its fields in declaration order. -/
def attrKey (a : Attributes) : String × Bool × Nat := (a.name, a.readonly, a.modified)

/-- Derived `Ord::cmp` of `Attributes`. -/
def compareAttributes (a b : Attributes) : Ordering :=
  prodCmp compareString (prodCmp compareBool compareNat) (attrKey a) (attrKey b)

/-- Directory child reference (`struct DirHash`), fields `(attr, id)`. -/
structure DirHash where
  attr : Attributes
  id : HashID
deriving DecidableEq

/-- File child reference (`struct FileHash`), fields `(attr, id)`. -/
structure FileHash where
  attr : Attributes
  id : HashID
deriving DecidableEq

/-- Symlink child reference (`struct SymlinkHash`), fields `(attr, id)`. -/
structure SymlinkHash where
  attr : Attributes
  id : HashID
deriving DecidableEq

/-- Derived `Ord::cmp` of the `(attr, id)` reference structs. -/
def compareAttrId (a b : Attributes × HashID) : Ordering :=
  prodCmp compareAttributes compareString a b

/-- Child reference of a directory (`enum FsHash`), with variants in
declaration order `dir`, `file`, `symlink`. -/
inductive FsHash where
  | dir (h : DirHash)
  | file (h : FileHash)
  | symlink (h : SymlinkHash)
deriving DecidableEq

/-- Attributes of a child reference (`FsHash::attr`). -/
def FsHash.attr : FsHash → Attributes
  | .dir h => h.attr
  | .file h => h.attr
  | .symlink h => h.attr

/-- Hash id of a child reference (`FsHash::id`). -/
def FsHash.id : FsHash → HashID
  | .dir h => h.id
  | .file h => h.id
  | .symlink h => h.id

/-- Derived `Ord::cmp` of `FsHash`: variants by declaration order
(`Dir < File < Symlink`), payloads compared when the variants agree. -/
def compareFsHash : FsHash → FsHash → Ordering
  | .dir a, .dir b => compareAttrId (a.attr, a.id) (b.attr, b.id)
  | .dir _, .file _ => .lt
  | .dir _, .symlink _ => .lt
  | .file _, .dir _ => .gt
  | .file a, .file b => compareAttrId (a.attr, a.id) (b.attr, b.id)
  | .file _, .symlink _ => .lt
  | .symlink _, .dir _ => .gt
  | .symlink _, .file _ => .gt
  | .symlink a, .symlink b => compareAttrId (a.attr, a.id) (b.attr, b.id)

/-- The boolean order `Vec::sort` effectively sorts `Vec<FsHash>` by. -/
def fsHashLe (a b : FsHash) : Bool := leOf compareFsHash a b

/-- Directory entry (`struct DirEntry`): the `id` is `#[serde(skip_serializing)]
#[serde(default)]`, so it is absent from the serialised form and defaults to
`None` when parsed. -/
structure DirEntry where
  id : Option HashID
  attr : Attributes
  children : List FsHash
deriving DecidableEq

/-- File entry (`struct FileEntry`). -/
structure FileEntry where
  id : Option HashID
  attr : Attributes
deriving DecidableEq

/-- Builder of a `DirEntry` (`struct DirEntryBuilder`). -/
structure DirEntryBuilder where
  attr : Attributes
  children : List FsHash
deriving DecidableEq

/-- Create a builder with no children (`DirEntryBuilder::new`). -/
def DirEntryBuilder.new (attr : Attributes) : DirEntryBuilder := ⟨attr, []⟩

/-- Push one child id (`DirEntryBuilder::append`, a `Vec::push`). -/
def DirEntryBuilder.append (b : DirEntryBuilder) (ch : FsHash) : DirEntryBuilder :=
  ⟨b.attr, b.children ++ [ch]⟩

/-- Append a whole enumeration sequence of children in order. -/
def DirEntryBuilder.appendAll (b : DirEntryBuilder) (chs : List FsHash) : DirEntryBuilder :=
  chs.foldl DirEntryBuilder.append b

/-- Build the normalised entry (`DirEntryBuilder::build`): `self.children.sort()`
(a stable sort by the derived `Ord` of `FsHash`), id left unset. -/
def DirEntryBuilder.build (b : DirEntryBuilder) : DirEntry :=
  { id := none, attr := b.attr, children := b.children.mergeSort fsHashLe }

/-- Backup history record (`struct History`), with derived `Ord` comparing
`(timestamp, id)` lexicographically. -/
structure History where
  timestamp : Timestamp
  id : HashID
deriving DecidableEq

/-- Derived `Ord::cmp` of `History`. -/
def compareHistory (a b : History) : Ordering :=
  prodCmp compareNat compareString (a.timestamp, a.id) (b.timestamp, b.id)

/-- The boolean order `Vec::sort` effectively sorts `Vec<History>` by. -/
def historyLe (a b : History) : Bool := leOf compareHistory a b

theorem isLinCmp_attributes : IsLinCmp compareAttributes := by
  refine (isLinCmp_prod isLinCmp_string (isLinCmp_prod isLinCmp_bool isLinCmp_nat)).comap
    attrKey ?_
  intro x y h
  cases x; cases y
  simpa [attrKey] using h

theorem isLinCmp_attrId : IsLinCmp compareAttrId :=
  isLinCmp_prod isLinCmp_attributes isLinCmp_string

theorem dirHash_cmp_eq {x y : DirHash}
    (h : compareAttrId (x.attr, x.id) (y.attr, y.id) = .eq) : x = y := by
  have h2 := isLinCmp_attrId.eq_imp h
  simp only [Prod.mk.injEq] at h2
  cases x; cases y; simp_all

theorem fileHash_cmp_eq {x y : FileHash}
    (h : compareAttrId (x.attr, x.id) (y.attr, y.id) = .eq) : x = y := by
  have h2 := isLinCmp_attrId.eq_imp h
  simp only [Prod.mk.injEq] at h2
  cases x; cases y; simp_all

theorem symlinkHash_cmp_eq {x y : SymlinkHash}
    (h : compareAttrId (x.attr, x.id) (y.attr, y.id) = .eq) : x = y := by
  have h2 := isLinCmp_attrId.eq_imp h
  simp only [Prod.mk.injEq] at h2
  cases x; cases y; simp_all

theorem isLinCmp_fsHash : IsLinCmp compareFsHash := by
  constructor
  · intro a b h
    cases a with
    | dir x =>
      cases b with
      | dir y => exact congrArg FsHash.dir (dirHash_cmp_eq h)
      | file y => exact Ordering.noConfusion h
      | symlink y => exact Ordering.noConfusion h
    | file x =>
      cases b with
      | dir y => exact Ordering.noConfusion h
      | file y => exact congrArg FsHash.file (fileHash_cmp_eq h)
      | symlink y => exact Ordering.noConfusion h
    | symlink x =>
      cases b with
      | dir y => exact Ordering.noConfusion h
      | file y => exact Ordering.noConfusion h
      | symlink y => exact congrArg FsHash.symlink (symlinkHash_cmp_eq h)
  · intro a
    cases a <;> exact isLinCmp_attrId.refl _
  · intro a b
    cases a <;> cases b <;> simp [compareFsHash, Ordering.swap] <;>
      exact isLinCmp_attrId.swap _ _
  · intro a b c h1 h2
    cases a <;> cases b <;> cases c <;> simp_all [compareFsHash]
    all_goals exact isLinCmp_attrId.lt_trans h1 h2

theorem isLinCmp_history : IsLinCmp compareHistory := by
  refine (isLinCmp_prod isLinCmp_nat isLinCmp_string).comap
    (fun h : History => (h.timestamp, h.id)) ?_
  intro x y h
  cases x; cases y
  simpa using h

end Sbak

namespace Sbak

/-! ## Canonical JSON serialisation (`serde_json::to_writer` of the entry types)

`serde_json` emits compact JSON with struct fields in declaration order.  The
`id` field of an entry is `#[serde(skip_serializing)]`, so it never appears.
`FsHash` is internally tagged with `#[serde(tag = "type")]` and variant names
renamed to `"dir"`, `"file"`, `"symlink"`.  String escaping uses the short
escapes for `"` and backslash and the control characters BS, TAB, LF, FF, CR,
and `\u00XX` for the remaining control characters; other characters are
emitted as raw UTF-8.
-/

/-- Escape a single character the way `serde_json` does inside a JSON string. -/
def escapeChar (c : Char) : List Char :=
  if c = '"' then ['\\', '"']
  else if c = '\\' then ['\\', '\\']
  else if c.toNat = 8 then ['\\', 'b']
  else if c.toNat = 9 then ['\\', 't']
  else if c.toNat = 10 then ['\\', 'n']
  else if c.toNat = 12 then ['\\', 'f']
  else if c.toNat = 13 then ['\\', 'r']
  else if c.toNat < 32 then ['\\', 'u', '0', '0', hexChar (c.toNat / 16), hexChar (c.toNat % 16)]
  else [c]

/-- Serialise a string as a quoted, escaped JSON string. -/
def jsonString (s : String) : String :=
  "\"" ++ ⟨s.data.foldr (fun c acc => escapeChar c ++ acc) []⟩ ++ "\""

/-- Serialise a boolean as JSON. -/
def jsonBool : Bool → String
  | true => "true"
  | false => "false"

/-- Join serialised values with commas, as inside a JSON array. -/
def joinComma : List String → String
  | [] => ""
  | [s] => s
  | s :: rest => s ++ "," ++ joinComma rest

/-- Serialised form of `Attributes` (fields `name`, `readonly`, `modified`). -/
def serializeAttributes (a : Attributes) : String :=
  "\x7b\"name\":" ++ jsonString a.name ++ ",\"readonly\":" ++ jsonBool a.readonly ++
    ",\"modified\":" ++ toString a.modified ++ "\x7d"

/-- Serialised form of one `FsHash` child reference (tag first, then `attr`, `id`). -/
def serializeFsHash (h : FsHash) : String :=
  match h with
  | .dir d =>
    "\x7b\"type\":\"dir\",\"attr\":" ++ serializeAttributes d.attr ++
      ",\"id\":" ++ jsonString d.id ++ "\x7d"
  | .file f =>
    "\x7b\"type\":\"file\",\"attr\":" ++ serializeAttributes f.attr ++
      ",\"id\":" ++ jsonString f.id ++ "\x7d"
  | .symlink s =>
    "\x7b\"type\":\"symlink\",\"attr\":" ++ serializeAttributes s.attr ++
      ",\"id\":" ++ jsonString s.id ++ "\x7d"

/-- Serialised form of a `DirEntry`: the `id` field is skipped, leaving
`attr` and `children`. -/
def serializeDirEntry (e : DirEntry) : String :=
  "\x7b\"attr\":" ++ serializeAttributes e.attr ++ ",\"children\":[" ++
    joinComma (e.children.map serializeFsHash) ++ "]\x7d"

/-- UTF-8 bytes of a string, as written by `to_writer`. -/
def utf8Bytes (s : String) : List Nat := s.toUTF8.toList.map (fun b => b.toNat)

/-- Object id of a directory entry: the SHA3-256 of its serialised bytes, as
computed by `Scanner::scan_dir` via `hash_reader`. -/
def dirEntryObjectId (e : DirEntry) : HashID := sha3hex (utf8Bytes (serializeDirEntry e))

/-! ## The object store (`Repository::{save_object, open_object, object_path}`)

The repository's object tree is modelled as an association list from paths
(lists of path components, newest binding first, so that `File::create`
overwrites) to file contents.  A model file handle records the bytes of the
opened file and the stream position.
-/

/-- An open file handle: contents plus current seek position. -/
structure MFile where
  content : List Nat
  pos : Nat
deriving DecidableEq

/-- Errors of `repo::Error` relevant to the object store. -/
inductive RepoError where
  | brokenObject (toBe : HashID) (actual : HashID)
  | entryNotFound (id : HashID)
deriving DecidableEq

/-- The on-disk object tree: a path-indexed map, newest binding first. -/
abbrev Store := List (List String × List Nat)

/-- Look a path up in the store (the newest binding wins, as after overwrite). -/
def storeLookup : Store → List String → Option (List Nat)
  | [], _ => none
  | (q, bs) :: rest, p => if q = p then some bs else storeLookup rest p

/-- Write a file at a path (`File::create` plus `io::copy`: creates or truncates). -/
def storeWrite (st : Store) (p : List String) (bs : List Nat) : Store := (p, bs) :: st

/-- Split a 64-character hash id into its `[0..4]`, `[4..8]`, `[8..]` parts
(`HashID::parts`). -/
def hashParts (id : HashID) : String × String × String :=
  (⟨id.data.take 4⟩, ⟨(id.data.drop 4).take 4⟩, ⟨id.data.drop 8⟩)

/-- Partitioned path of an object below the repository root
(`Repository::object_path`). -/
def objectPath (id : HashID) : List String :=
  ["objects", (hashParts id).1, (hashParts id).2.1, (hashParts id).2.2]

/-- Save a file as the object with the given id (`Repository::save_object`). -/
def saveObject (st : Store) (id : HashID) (bs : List Nat) : Store :=
  storeWrite st (objectPath id) bs

/-- Open and verify an object (`Repository::open_object`): fail with
`EntryNotFound` when the partitioned path does not exist; otherwise open the
file, rehash it end to end (`hash::hash`, which also rewinds the handle to
offset 0), and fail with `BrokenObject` when the recomputed id differs. -/
def openObject (st : Store) (id : HashID) : Except RepoError MFile :=
  match storeLookup st (objectPath id) with
  | none => .error (.entryNotFound id)
  | some bs =>
    let loadId := sha3hex bs
    if loadId = id then .ok ⟨bs, 0⟩
    else .error (.brokenObject id loadId)

/-! ## Loading directory entries (`Bank::{load_root, load_dir_entry}`)

`load_dir_entry` opens the verified object and runs `serde_json::from_reader`
on it.  The JSON transport is modelled at the value level: the wire form of a
`DirEntry` contains exactly the serialised fields (`attr` and `children`; the
`id` is `#[serde(skip_serializing)]`), and parsing fills the missing `id`
field with its `#[serde(default)]`, `None`.
-/

/-- Wire form of a `DirEntry`: what `serde_json` actually serialises. -/
structure WireDirEntry where
  attr : Attributes
  children : List FsHash
deriving DecidableEq

/-- Serialisation to the wire form (`id` is skipped by `skip_serializing`). -/
def encodeDirEntryWire (e : DirEntry) : WireDirEntry := ⟨e.attr, e.children⟩

/-- Parsing from the wire form (`id` takes its serde `default`, `None`). -/
def decodeDirEntryWire (w : WireDirEntry) : DirEntry := ⟨none, w.attr, w.children⟩

/-- A bank's directory-entry objects, keyed by hash id. -/
abbrev EntryStore := List (HashID × WireDirEntry)

/-- Look an id up among the stored entry objects. -/
def entryLookup : EntryStore → HashID → Option WireDirEntry
  | [], _ => none
  | (k, w) :: rest, id => if k = id then some w else entryLookup rest id

/-- Model of `Bank::load_dir_entry`: open the object with that id (`some`
models a successful, verified open) and parse it with `from_reader`. -/
def loadDirEntry (objects : EntryStore) (id : HashID) : Option DirEntry :=
  (entryLookup objects id).map decodeDirEntryWire

/-- Model of `Bank::load_root`: `load_dir_entry` at the history's root id. -/
def loadRoot (objects : EntryStore) (h : History) : Option DirEntry :=
  loadDirEntry objects h.id

/-! ## Scanning a file (`Scanner::scan_file`) -/

/-- Slow path of `scan_file`: open the file, stream-hash its contents, save
the object under the resulting id, and return a `FileHash` with that id. -/
def scanFileSlow (content : List Nat) (attr : Attributes) (st : Store) : FsHash × Store :=
  let id := sha3hex content
  (.file ⟨attr, id⟩, saveObject st id content)

/-- Model of `Scanner::scan_file`.  When a prior `FileHash` exists and its
`modified` timestamp equals the current attributes' timestamp, the prior hash
is returned verbatim and the store is untouched; otherwise the slow path
hashes and saves the content. -/
def scanFile (content : List Nat) (attr : Attributes) (lastEntry : Option FileHash)
    (st : Store) : FsHash × Store :=
  match lastEntry with
  | some le =>
    if le.attr.modified = attr.modified then (.file le, st)
    else scanFileSlow content attr st
  | none => scanFileSlow content attr st

/-! ## Histories (`Bank::{histories, find_hash}`)

`histories` enumerates the files of the bank's `history/` directory, keeps
those whose name ends in `.history.json`, parses each, and sorts the result
ascending; `find_hash` filters that list by id prefix.  The directory listing
is modelled as a list of `(file name, parsed record)` pairs in arbitrary
(filesystem) order.
-/

/-- Model of `Bank::histories` over a directory listing. -/
def bankHistories (files : List (String × History)) : List History :=
  ((files.filter (fun f => f.1.endsWith ".history.json")).map Prod.snd).mergeSort historyLe

/-- Model of `Bank::find_hash`: the histories whose id starts with the given
string. -/
def bankFindHash (files : List (String × History)) (pre : String) : List History :=
  (bankHistories files).filter (fun h => h.id.startsWith pre)

end Sbak

namespace Sbak

/-! ## Ignore patterns (`core/ignore/pattern.rs`) -/

/-- One piece of a name pattern (`enum NamePatternPart`). -/
inductive NamePatternPart where
  | str (s : String)
  | anyChar
  | anyStr
deriving DecidableEq

/-- A pattern over one path component (`struct NamePattern`). -/
structure NamePattern where
  parts : List NamePatternPart
deriving DecidableEq

/-- One component of a path pattern (`enum PatternPart`). -/
inductive PatternPart where
  | normal (np : NamePattern)
  | anyPath
deriving DecidableEq

/-- One ignore pattern (`struct Pattern`). -/
structure Pattern where
  parts : List PatternPart
  allow : Bool
  dir_only : Bool
deriving DecidableEq

/-- Result of matching one entry against patterns (`enum Match`). -/
inductive MatchRes where
  | ignored
  | parent
  | allowed
deriving DecidableEq

/-- Normalisation loop of `NamePattern::from_parts`: adjacent literal runs
are concatenated and adjacent `*` wildcards are collapsed.  Each iteration of
the source loop removes one element from the worklist, so the list length is
exact fuel. -/
def normNameGo : Nat → List NamePatternPart → List NamePatternPart
  | 0, l => l
  | fuel + 1, .str s1 :: .str s2 :: rest => normNameGo fuel (.str (s1 ++ s2) :: rest)
  | fuel + 1, .anyStr :: .anyStr :: rest => normNameGo fuel (.anyStr :: rest)
  | fuel + 1, x :: y :: rest => x :: normNameGo fuel (y :: rest)
  | _ + 1, l => l

/-- Normalisation of name-pattern parts. -/
def normNameParts (l : List NamePatternPart) : List NamePatternPart :=
  normNameGo l.length l

/-- Constructor with normalisation (`NamePattern::from_parts`). -/
def NamePattern.from_parts (l : List NamePatternPart) : NamePattern :=
  ⟨normNameParts l⟩

/-- Normalisation loop of `Pattern::from_parts`: adjacent `**` wildcards are
collapsed. -/
def normPatternGo : Nat → List PatternPart → List PatternPart
  | 0, l => l
  | fuel + 1, .anyPath :: .anyPath :: rest => normPatternGo fuel (.anyPath :: rest)
  | fuel + 1, x :: y :: rest => x :: normPatternGo fuel (y :: rest)
  | _ + 1, l => l

/-- Normalisation of pattern parts. -/
def normPatternParts (l : List PatternPart) : List PatternPart :=
  normPatternGo l.length l

/-- Constructor with normalisation (`Pattern::from_parts`): a cascade pattern
gets a leading `**`. -/
def Pattern.from_parts (allow cascade dir_only : Bool) (parts : List PatternPart) : Pattern :=
  ⟨normPatternParts (if cascade then .anyPath :: parts else parts), allow, dir_only⟩

/-- Check that the second character list starts with the first. -/
def startsWithChars : List Char → List Char → Bool
  | [], _ => true
  | _ :: _, [] => false
  | a :: as, b :: bs => if a = b then startsWithChars as bs else false

/-- Name-pattern matching (`match_np`): `Str` consumes a literal run,
`AnyChar` one character; a trailing `*` always succeeds, and an inner `*`
tries every non-empty suffix of the remaining string. -/
def matchNP : List NamePatternPart → List Char → Bool
  | [], s => s.isEmpty
  | .str p :: rest, s =>
    if startsWithChars p.data s then matchNP rest (s.drop p.data.length) else false
  | .anyChar :: rest, s =>
    match s with
    | [] => false
    | _ :: tl => matchNP rest tl
  | .anyStr :: rest, s =>
    if rest.isEmpty then true
    else (List.range s.length).any (fun k => matchNP rest (s.drop k))

/-- Path-pattern matching (`match_path`): a `Normal` component must match the
head path component; `AnyPath` (`**`) tries the remaining pattern at the drop
counts `0, 1, …, path.length - 1`. -/
def matchPath : List PatternPart → List String → Bool
  | [], path => path.isEmpty
  | .normal np :: rest, path =>
    match path with
    | [] => false
    | s :: tl => if matchNP np.parts s.data then matchPath rest tl else false
  | .anyPath :: rest, path =>
    (List.range path.length).any (fun k => matchPath rest (path.drop k))

/-- An entry path relative to the current ignore frame (`struct EntryPath`). -/
structure EntryPath where
  parts : List String
  is_dir : Bool
deriving DecidableEq

/-- Matching of one pattern (`Pattern::matches`): a directory-only pattern
defers on non-directories; otherwise a path match yields `Allowed` for an
allow pattern and `Ignored` otherwise. -/
def Pattern.matches (p : Pattern) (ep : EntryPath) : MatchRes :=
  if p.dir_only && !ep.is_dir then .parent
  else if matchPath p.parts ep.parts then (if p.allow then .allowed else .ignored)
  else .parent

/-- Iteration core of `Patterns::matches` over an already-reversed list. -/
def matchGo : List Pattern → EntryPath → MatchRes
  | [], _ => .parent
  | p :: rest, ep =>
    match p.matches ep with
    | .parent => matchGo rest ep
    | r => r

/-- Matching of a pattern list (`Patterns::matches`): patterns are consulted
in reverse definition order and the first non-`Parent` answer wins. -/
def patternsMatches (pats : List Pattern) (ep : EntryPath) : MatchRes :=
  matchGo pats.reverse ep

/-! ## The ignore-pattern parser (`core/ignore/pattern/parser.rs`) -/

/-- Parser error (`parser::Error::InvalidPattern`). -/
inductive ParseErr where
  | invalidPattern (s : String)
deriving DecidableEq

deriving instance DecidableEq for Except

/-- Unicode `White_Space` code points, as tested by Rust's
`char::is_whitespace` (used by `str::trim_start`). -/
def rustIsWhitespace (c : Char) : Bool :=
  [9, 10, 11, 12, 13, 32, 133, 160, 5760, 8192, 8193, 8194, 8195, 8196, 8197, 8198,
    8199, 8200, 8201, 8202, 8232, 8233, 8239, 8287, 12288].contains c.toNat

/-- Leading-whitespace trimming (`str::trim_start`). -/
def rustTrimStart : List Char → List Char
  | [] => []
  | c :: rest => if rustIsWhitespace c then rustTrimStart rest else c :: rest

/-- The comment test applied to each line by `parse`:
`line.trim_start().starts_with('#')`. -/
def isCommentLine (line : String) : Bool :=
  match rustTrimStart line.data with
  | '#' :: _ => true
  | _ => false

/-- One iteration group of the `'part` loop of `pattern_split`: consume one
component, stopping at an unescaped `/` (consumed) or at the end, turning
`\/` into a literal slash.  The fuel counterpart of the Rust loop; `none`
models the source's non-termination when a backslash is not followed by `/`
(the loop then repeats without consuming input). -/
def takePartGo : Nat → List Char → List Char → Option (String × List Char)
  | 0, _, _ => none
  | _ + 1, [], acc => some (⟨acc.reverse⟩, [])
  | fuel + 1, '\\' :: '/' :: rest, acc => takePartGo fuel rest ('/' :: acc)
  | _ + 1, '\\' :: _, _ => none
  | _ + 1, '/' :: rest, acc => some (⟨acc.reverse⟩, rest)
  | fuel + 1, c :: rest, acc => takePartGo fuel rest (c :: acc)

/-- Outer loop of `pattern_split`: collect components until the input is
exhausted. -/
def splitGo : Nat → List Char → Option (List String)
  | _, [] => some []
  | 0, _ => none
  | fuel + 1, cs =>
    match takePartGo (cs.length + 1) cs [] with
    | none => none
    | some (part, rest) => (splitGo fuel rest).map (part :: ·)

/-- Model of `pattern_split`.  Each loop iteration of the source consumes at
least one character or diverges, so `length + 1` fuel is exact. -/
def patternSplit (cs : List Char) : Option (List String) :=
  splitGo (cs.length + 1) cs

/-- Model of `parse_name_pattern`: escapes `\\`, `\?`, `\*` become literals,
any other escape is an `InvalidPattern` error, `?` and `*` become wildcards,
and plain characters become literal parts (fragmented literals are merged by
the `from_parts` normalisation, as the source notes). -/
def parseNameGo (orig : String) : List Char → Except ParseErr (List NamePatternPart)
  | [] => .ok []
  | '\\' :: '\\' :: rest => (parseNameGo orig rest).map (.str "\\" :: ·)
  | '\\' :: '?' :: rest => (parseNameGo orig rest).map (.str "?" :: ·)
  | '\\' :: '*' :: rest => (parseNameGo orig rest).map (.str "*" :: ·)
  | '\\' :: _ => .error (.invalidPattern orig)
  | '?' :: rest => (parseNameGo orig rest).map (.anyChar :: ·)
  | '*' :: rest => (parseNameGo orig rest).map (.anyStr :: ·)
  | c :: rest => (parseNameGo orig rest).map (.str ⟨[c]⟩ :: ·)

/-- Model of `parse_name_pattern` (normalising constructor applied last). -/
def parseNamePattern (s : String) : Except ParseErr NamePattern :=
  (parseNameGo s s.data).map NamePattern.from_parts

/-- Turn split components into pattern parts: a lone `**` becomes `AnyPath`,
anything else is parsed as a name pattern. -/
def partsOfStrs : List String → Except ParseErr (List PatternPart)
  | [] => .ok []
  | s :: rest =>
    if s = "**" then (partsOfStrs rest).map (.anyPath :: ·)
    else
      match parseNamePattern s with
      | .error e => .error e
      | .ok np => (partsOfStrs rest).map (.normal np :: ·)

/-- Model of `parse_pattern`: leading `!` marks an allow rule, leading `/`
anchors (disables cascade), trailing `/` restricts to directories; the body
is split on `/`; a pattern of two or more components never cascades.  The
outer `Option` is the `pattern_split` divergence layer. -/
def parsePattern (input : String) : Option (Except ParseErr Pattern) :=
  let cs0 := input.data
  let st1 := match cs0 with
    | '!' :: r => (true, r)
    | _ => (false, cs0)
  let allow := st1.1
  let st2 := match st1.2 with
    | '/' :: r => (false, r)
    | _ => (true, st1.2)
  let cascade0 := st2.1
  let st3 := if st2.2.getLast? = some '/' then (true, st2.2.dropLast) else (false, st2.2)
  let dir_only := st3.1
  (patternSplit st3.2).map (fun strs =>
    match partsOfStrs strs with
    | .error e => .error e
    | .ok parts =>
      let cascade := if parts.length ≥ 2 then false else cascade0
      .ok (Pattern.from_parts allow cascade dir_only parts))

/-- Character walk of `BufRead::lines`: each `\n` ends a line (a `\r` just
before it is stripped too); a final line without a newline is yielded as
read, and the empty tail after a final newline yields nothing. -/
def linesGo (acc : List Char) : List Char → List String
  | [] => if acc.isEmpty then [] else [⟨acc.reverse⟩]
  | '\n' :: rest =>
    let line := acc.reverse
    let line := if line.getLast? = some '\r' then line.dropLast else line
    ⟨line⟩ :: linesGo [] rest
  | c :: rest => linesGo (c :: acc) rest

/-- Model of `BufRead::lines` on the file contents. -/
def linesOf (txt : String) : List String := linesGo [] txt.data

/-- Line loop of `parse`: skip a line whose first character after leading
whitespace is `#`, skip the exactly-empty line, parse every other line as a
pattern; the first parse error aborts. -/
def parseLines : List String → Option (Except ParseErr (List Pattern))
  | [] => some (.ok [])
  | l :: rest =>
    if isCommentLine l then parseLines rest
    else if l = "" then parseLines rest
    else
      match parsePattern l with
      | none => none
      | some (.error e) => some (.error e)
      | some (.ok p) => (parseLines rest).map (Except.map (fun ps => p :: ps))

/-- Model of `parse` (and hence of `load_patterns` on file contents). -/
def parseFileContents (txt : String) : Option (Except ParseErr (List Pattern)) :=
  parseLines (linesOf txt)

end Sbak

namespace Sbak

/-! ## The ignore stack (`core/ignore.rs`)

A stack frame holds the path it is bound to, an optional parent (absent for
the bank-root frame) and its pattern set.  Paths are modelled as lists of
normal components (with `".."` standing for `Component::ParentDir`), and the
source tree's ignore files as a map from path to file contents.
-/

/-- Linked stack of ignore frames (`struct IgnoreStack`); `bankRoot` is the
frame with `parent == None`. -/
inductive IgnoreStackM where
  | bankRoot (root_path : List String) (pats : List Pattern)
  | frame (root_path : List String) (parent : IgnoreStackM) (pats : List Pattern)
deriving DecidableEq

/-- The frame's `root_path` field. -/
def IgnoreStackM.rootPath : IgnoreStackM → List String
  | .bankRoot p _ => p
  | .frame p _ _ => p

/-- The frame's `current_patterns` field. -/
def IgnoreStackM.pats : IgnoreStackM → List Pattern
  | .bankRoot _ ps => ps
  | .frame _ _ ps => ps

/-- Model of `IgnoreStack::new`: the root frame bound to the scan root,
carrying the bank-wide patterns. -/
def IgnoreStackM.new (root_path : List String) (bank_patterns : List Pattern) : IgnoreStackM :=
  .bankRoot root_path bank_patterns

/-- Model of `IgnoreStack::child`.  The new frame's path appends `dir_name`
unless the receiver is the bank-root frame; the ignore file read is
`self.root_path.join(".sbakignore")` — the receiver's path, computed before
the join.  `fsFiles` maps a path to the contents of the file there, when one
exists; the outer `Option` is the parser's divergence layer. -/
def IgnoreStackM.child (fsFiles : List String → Option String) (self : IgnoreStackM)
    (dir_name : String) : Option (Except ParseErr IgnoreStackM) :=
  let newRoot := match self with
    | .bankRoot p _ => p
    | .frame p _ _ => p ++ [dir_name]
  let ignoreFile := self.rootPath ++ [".sbakignore"]
  match fsFiles ignoreFile with
  | some txt => (parseFileContents txt).map (Except.map (fun ps => .frame newRoot self ps))
  | none => some (.ok (.frame newRoot self []))

/-- Strip the frame root from an entry path (`Path::strip_prefix` — `none` is
the `NotChild` error). -/
def stripRoot : List String → List String → Option (List String)
  | [], p => some p
  | _ :: _, [] => none
  | r :: rs, q :: qs => if r = q then stripRoot rs qs else none

/-- Component walk of `EntryPath::from_path`: normal components are pushed,
`".."` pops (an underflow is the `NotChild` error). -/
def epPartsGo (acc : List String) : List String → Option (List String)
  | [] => some acc.reverse
  | c :: rest =>
    if c = ".." then
      match acc with
      | [] => none
      | _ :: t => epPartsGo t rest
    else epPartsGo (c :: acc) rest

/-- Model of `EntryPath::from_path`. -/
def entryPathFrom (root : List String) (path : List String) (is_dir : Bool) :
    Option EntryPath :=
  (stripRoot root path).bind (fun rel => (epPartsGo [] rel).map (fun parts => ⟨parts, is_dir⟩))

/-- Model of `IgnoreStack::ignored`: build the entry path relative to the
current frame, query its patterns, and on `Parent` defer to the parent frame;
the bank-root frame resolves `Parent` to not-ignored. -/
def ignoredM : IgnoreStackM → List String → Bool → Option Bool
  | .bankRoot root ps, path, is_dir =>
    match entryPathFrom root path is_dir with
    | none => none
    | some ep =>
      match patternsMatches ps ep with
      | .allowed => some false
      | .ignored => some true
      | .parent => some false
  | .frame root par ps, path, is_dir =>
    match entryPathFrom root path is_dir with
    | none => none
    | some ep =>
      match patternsMatches ps ep with
      | .allowed => some false
      | .ignored => some true
      | .parent => ignoredM par path is_dir

/-! ## The child filter of `Scanner::scan_dir`

For every directory child the scanner queries the ignore stack before
recursing.  The query the source performs is
`current_stack.ignored(&ch.path(), fs_meta.is_dir())` where
`fs_meta = fs::metadata(p)` — the metadata of `p`, the directory being
scanned, whose `is_dir()` is `true`.
-/

/-- One enumerated directory child: its name and whether it is a directory. -/
structure ChildEnt where
  name : String
  is_dir : Bool
deriving DecidableEq

/-- The ignore filter applied to the enumerated children of the directory at
`p` in `Scanner::scan_dir`: a child is dropped when `ignored` answers `true`
for its path paired with `fs::metadata(p).is_dir()`, which is `true` for the
directory being scanned. -/
def scanDirKeep (stack : IgnoreStackM) (p : List String) :
    List ChildEnt → Option (List ChildEnt)
  | [] => some []
  | ch :: rest =>
    match ignoredM stack (p ++ [ch.name]) true with
    | none => none
    | some true => scanDirKeep stack p rest
    | some false => (scanDirKeep stack p rest).map (ch :: ·)

/-- The same filter with the flag the specification describes: each child is
tested with its own `is_dir` flag. -/
def scanDirKeepSpec (stack : IgnoreStackM) (p : List String) :
    List ChildEnt → Option (List ChildEnt)
  | [] => some []
  | ch :: rest =>
    match ignoredM stack (p ++ [ch.name]) ch.is_dir with
    | none => none
    | some true => scanDirKeepSpec stack p rest
    | some false => (scanDirKeepSpec stack p rest).map (ch :: ·)

/-! ## Restoring a file (`Extender::extend_file`, `core/extend.rs`)

The target file system is modelled as a path-indexed map to file metadata
(contents, readonly flag, modification time).  `fs::File::create` keeps the
permissions of an existing file and creates a new file writable;
`set_file_mtime` sets the modification time.  The source calls
`Permissions::set_readonly` on the value returned by
`fs::metadata(path)?.permissions()` but never passes it back through
`fs::set_permissions`, so the on-disk readonly flag is unchanged.
-/

/-- Metadata of one file at the restore target. -/
structure FileMeta where
  content : List Nat
  readonly : Bool
  mtime : Nat
deriving DecidableEq

/-- The restore-target file system. -/
abbrev FsState := List (List String × FileMeta)

/-- Look up a path at the restore target. -/
def fsLookup : FsState → List String → Option FileMeta
  | [], _ => none
  | (q, m) :: rest, p => if q = p then some m else fsLookup rest p

/-- Write a file at the restore target (newest binding wins). -/
def fsWrite (fsm : FsState) (p : List String) (m : FileMeta) : FsState := (p, m) :: fsm

/-- Copy branch of `extend_file`: open the verified object, stream it over the
target, then set the modification time; the readonly flag keeps its previous
value (`true` permissions are computed but never applied). -/
def extendFileCopy (objStore : Store) (fsm : FsState) (path : List String)
    (fh : FileHash) (old : Option FileMeta) : Except RepoError FsState :=
  match openObject objStore fh.id with
  | .error e => .error e
  | .ok f =>
    let ro := match old with
      | some m => m.readonly
      | none => false
    .ok (fsWrite fsm path ⟨f.content, ro, fh.attr.modified⟩)

/-- Model of `Extender::extend_file`: skip when the target exists and
overwriting is not allowed; skip when the (overwritable) target's
modification time equals the snapshot attribute's; otherwise copy. -/
def extendFile (objStore : Store) (overwrite : Bool) (fsm : FsState)
    (path : List String) (fh : FileHash) : Except RepoError FsState :=
  match fsLookup fsm path with
  | some m =>
    if !overwrite then .ok fsm
    else if m.mtime = fh.attr.modified then .ok fsm
    else extendFileCopy objStore fsm path fh (some m)
  | none => extendFileCopy objStore fsm path fh none

end Sbak

namespace Sbak

/-! ## Supporting lemmas -/

theorem fsHashLe_trans : ∀ a b c, fsHashLe a b = true → fsHashLe b c = true →
    fsHashLe a c = true :=
  leOf_trans isLinCmp_fsHash

theorem fsHashLe_total : ∀ a b, (fsHashLe a b || fsHashLe b a) = true :=
  leOf_total isLinCmp_fsHash

theorem fsHashLe_antisymm : ∀ a b, fsHashLe a b = true → fsHashLe b a = true → a = b :=
  leOf_antisymm isLinCmp_fsHash

theorem historyLe_trans : ∀ a b c, historyLe a b = true → historyLe b c = true →
    historyLe a c = true :=
  leOf_trans isLinCmp_history

theorem historyLe_total : ∀ a b, (historyLe a b || historyLe b a) = true :=
  leOf_total isLinCmp_history

theorem appendAll_children (b : DirEntryBuilder) (l : List FsHash) :
    (b.appendAll l).children = b.children ++ l := by
  induction l generalizing b with
  | nil => simp [DirEntryBuilder.appendAll]
  | cons c tl ih =>
    show ((b.append c).appendAll tl).children = b.children ++ (c :: tl)
    rw [ih]
    simp [DirEntryBuilder.append]

theorem appendAll_attr (b : DirEntryBuilder) (l : List FsHash) :
    (b.appendAll l).attr = b.attr := by
  induction l generalizing b with
  | nil => simp [DirEntryBuilder.appendAll]
  | cons c tl ih =>
    show ((b.append c).appendAll tl).attr = b.attr
    rw [ih]
    rfl

/-- Building after appending a sequence to a fresh builder sorts exactly that
sequence. -/
theorem build_appendAll_new (attr : Attributes) (l : List FsHash) :
    ((DirEntryBuilder.new attr).appendAll l).build
      = ⟨none, attr, l.mergeSort fsHashLe⟩ := by
  have h1 : ((DirEntryBuilder.new attr).appendAll l).children = l := by
    rw [appendAll_children]
    rfl
  have h2 : ((DirEntryBuilder.new attr).appendAll l).attr = attr := by
    rw [appendAll_attr]
    rfl
  unfold DirEntryBuilder.build
  rw [h1, h2]

/-- The stable sort by a lawful comparison is the unique sorted permutation. -/
theorem mergeSort_fsHashLe_eq_of_sorted_perm {l s : List FsHash} (hp : s.Perm l)
    (hs : List.Pairwise (fun a b => fsHashLe a b = true) s) :
    l.mergeSort fsHashLe = s := by
  haveI : IsAntisymm FsHash (fun a b => fsHashLe a b = true) :=
    ⟨fun a b h1 h2 => fsHashLe_antisymm a b h1 h2⟩
  exact List.eq_of_perm_of_sorted (r := fun a b => fsHashLe a b = true)
    ((l.mergeSort_perm fsHashLe).trans hp.symm)
    (List.sorted_mergeSort fsHashLe_trans fsHashLe_total l)
    hs

theorem mergeSort_fsHashLe_eq_of_perm {l1 l2 : List FsHash} (h : l1.Perm l2) :
    l1.mergeSort fsHashLe = l2.mergeSort fsHashLe := by
  haveI : IsAntisymm FsHash (fun a b => fsHashLe a b = true) :=
    ⟨fun a b h1 h2 => fsHashLe_antisymm a b h1 h2⟩
  exact List.eq_of_perm_of_sorted (r := fun a b => fsHashLe a b = true)
    (((l1.mergeSort_perm fsHashLe).trans h).trans (l2.mergeSort_perm fsHashLe).symm)
    (List.sorted_mergeSort fsHashLe_trans fsHashLe_total l1)
    (List.sorted_mergeSort fsHashLe_trans fsHashLe_total l2)

/-- An object written by `save_object` under its own hash id opens cleanly. -/
theorem openObject_saveObject (st : Store) (bs : List Nat) (id : HashID)
    (h : sha3hex bs = id) : openObject (saveObject st id bs) id = .ok ⟨bs, 0⟩ := by
  simp [openObject, saveObject, storeWrite, storeLookup, h]

/-! ## C1 — object open with verification -/

/-- C1: `Repository::open_object(id)` fails with `EntryNotFound(id)` when the
partitioned object path does not exist; when the path holds bytes whose
SHA3-256 lowercase-hex hash differs from `id` it fails with `BrokenObject`
carrying the expected and the actual id; when the hash matches it returns the
opened file rewound to offset 0.  Consequently, overwriting a correctly
stored object with a one-byte mutation whose hash differs from `id` (as any
mutation short of a SHA3-256 collision does) makes the next open of `id` fail
with `BrokenObject`. -/
theorem open_object_spec (st : Store) (id : HashID) :
    (storeLookup st (objectPath id) = none →
      openObject st id = .error (.entryNotFound id))
  ∧ (∀ bs, storeLookup st (objectPath id) = some bs → sha3hex bs ≠ id →
      openObject st id = .error (.brokenObject id (sha3hex bs)))
  ∧ (∀ bs, storeLookup st (objectPath id) = some bs → sha3hex bs = id →
      openObject st id = .ok ⟨bs, 0⟩)
  ∧ (∀ bs i b, storeLookup st (objectPath id) = some bs → sha3hex bs = id →
      i < bs.length → b ≠ bs.getD i 0 → sha3hex (bs.set i b) ≠ id →
      openObject (saveObject st id (bs.set i b)) id
        = .error (.brokenObject id (sha3hex (bs.set i b)))) := by
  refine ⟨?_, ?_, ?_, ?_⟩
  · intro h
    simp [openObject, h]
  · intro bs h hne
    simp [openObject, h, hne]
  · intro bs h he
    simp [openObject, h, he]
  · intro bs i b _ _ _ _ hne
    simp [openObject, saveObject, storeWrite, storeLookup, hne]

end Sbak

namespace Sbak

set_option maxRecDepth 20000 in
/-- Witness for C1 at the one-byte object `[0]`: an empty store yields
`EntryNotFound`, the correctly saved object opens rewound to 0, and after the
byte is mutated to `1` the open fails with `BrokenObject`. -/
theorem open_object_spec_witness :
    openObject [] (sha3hex [0]) = .error (.entryNotFound (sha3hex [0]))
  ∧ openObject (saveObject [] (sha3hex [0]) [0]) (sha3hex [0]) = .ok ⟨[0], 0⟩
  ∧ openObject (saveObject (saveObject [] (sha3hex [0]) [0]) (sha3hex [0]) ([0].set 0 1))
      (sha3hex [0]) = .error (.brokenObject (sha3hex [0]) (sha3hex ([0].set 0 1))) := by
  refine ⟨?_, ?_, ?_⟩
  · exact (open_object_spec [] (sha3hex [0])).1 rfl
  · refine (open_object_spec (saveObject [] (sha3hex [0]) [0]) (sha3hex [0])).2.2.1 [0] ?_ rfl
    simp [saveObject, storeWrite, storeLookup]
  · refine (open_object_spec (saveObject [] (sha3hex [0]) [0]) (sha3hex [0])).2.2.2
      [0] 0 1 ?_ rfl (by decide) (by decide) ?_
    · simp [saveObject, storeWrite, storeLookup]
    · decide

end Sbak

namespace Sbak

/-! ## C2 — canonical child order of `DirEntryBuilder::build` -/

/-- The child order the specification text states: ascending by `attr`, ties
broken by `id`, with no regard to the variant. -/
def specAttrIdLe (a b : FsHash) : Bool :=
  leOf (fun x y => compareAttrId (x.attr, x.id) (y.attr, y.id)) a b

/-- A file child whose attribute name sorts first in the spec's order. -/
def cexFileChild : FsHash := .file ⟨⟨"a", false, 0⟩, "x"⟩

/-- A dir child whose attribute name sorts second in the spec's order. -/
def cexDirChild : FsHash := .dir ⟨⟨"b", false, 0⟩, "y"⟩

/-- C2 counterexample: `build` sorts by the derived `Ord` of `FsHash`, which
compares the variant first (`Dir < File < Symlink`), so appending a file with
attribute name `"a"` and a directory with attribute name `"b"` builds the
children `[dir "b", file "a"]`, which is not ascending in the claimed
`(attr, id)` order. -/
theorem build_not_attr_id_sorted :
    ((DirEntryBuilder.new ⟨"d", false, 0⟩).appendAll [cexFileChild, cexDirChild]).build.children
      = [cexDirChild, cexFileChild]
  ∧ ¬ List.Pairwise (fun a b => specAttrIdLe a b = true) [cexDirChild, cexFileChild] := by
  constructor
  · rw [build_appendAll_new]
    show [cexFileChild, cexDirChild].mergeSort fsHashLe = [cexDirChild, cexFileChild]
    exact mergeSort_fsHashLe_eq_of_sorted_perm (by decide) (by decide)
  · decide

/-- C2 (amended): `build` sorts the collected children by the derived total
order of `FsHash` (variant first, then `(attr, id)`), so for any two append
sequences that are permutations of each other it yields equal `DirEntry`
values, equal serialised bytes and equal directory object ids. -/
theorem build_perm_invariant (attr : Attributes) (l1 l2 : List FsHash) (h : l1.Perm l2) :
    ((DirEntryBuilder.new attr).appendAll l1).build
      = ((DirEntryBuilder.new attr).appendAll l2).build
  ∧ List.Pairwise (fun a b => fsHashLe a b = true)
      ((DirEntryBuilder.new attr).appendAll l1).build.children
  ∧ serializeDirEntry (((DirEntryBuilder.new attr).appendAll l1).build)
      = serializeDirEntry (((DirEntryBuilder.new attr).appendAll l2).build)
  ∧ dirEntryObjectId (((DirEntryBuilder.new attr).appendAll l1).build)
      = dirEntryObjectId (((DirEntryBuilder.new attr).appendAll l2).build) := by
  have hb : ((DirEntryBuilder.new attr).appendAll l1).build
      = ((DirEntryBuilder.new attr).appendAll l2).build := by
    rw [build_appendAll_new, build_appendAll_new, mergeSort_fsHashLe_eq_of_perm h]
  refine ⟨hb, ?_, congrArg serializeDirEntry hb, congrArg dirEntryObjectId hb⟩
  rw [build_appendAll_new]
  exact List.sorted_mergeSort fsHashLe_trans fsHashLe_total l1

/-- Witness for C2 (amended) on a concrete two-element permutation. -/
theorem build_perm_invariant_witness :
    ((DirEntryBuilder.new ⟨"d", false, 0⟩).appendAll [cexFileChild, cexDirChild]).build
      = ((DirEntryBuilder.new ⟨"d", false, 0⟩).appendAll [cexDirChild, cexFileChild]).build
  ∧ dirEntryObjectId (((DirEntryBuilder.new ⟨"d", false, 0⟩).appendAll
        [cexFileChild, cexDirChild]).build)
      = dirEntryObjectId (((DirEntryBuilder.new ⟨"d", false, 0⟩).appendAll
        [cexDirChild, cexFileChild]).build) := by
  have h := build_perm_invariant ⟨"d", false, 0⟩ [cexFileChild, cexDirChild]
    [cexDirChild, cexFileChild] (by decide)
  exact ⟨h.1, h.2.2.2⟩

/-! ## C3 — the incremental fast path of `Scanner::scan_file` -/

/-- C3: when a prior `FileHash` exists and its recorded `modified` timestamp
equals the current attributes' timestamp, `scan_file` returns the prior hash
verbatim for every possible file content and leaves the object store
untouched (no read of the body, no write); when there is no prior hash or the
timestamps differ, it hashes the content and saves the object under the
resulting id before returning a hash derived from a fresh `FileEntry`. -/
theorem scan_file_spec (attr : Attributes) (st : Store) :
    (∀ le content, le.attr.modified = attr.modified →
      scanFile content attr (some le) st = (.file le, st))
  ∧ (∀ le content, le.attr.modified ≠ attr.modified →
      scanFile content attr (some le) st
        = (.file ⟨attr, sha3hex content⟩, saveObject st (sha3hex content) content))
  ∧ (∀ content, scanFile content attr none st
      = (.file ⟨attr, sha3hex content⟩, saveObject st (sha3hex content) content)) := by
  refine ⟨?_, ?_, ?_⟩
  · intro le content he
    simp [scanFile, he]
  · intro le content hne
    simp [scanFile, scanFileSlow, hne]
  · intro content
    simp [scanFile, scanFileSlow]

/-- Witness for C3: both the fast path (equal timestamps, two different
contents, store untouched) and the slow path at concrete inputs. -/
theorem scan_file_spec_witness :
    scanFile [7] ⟨"f", false, 5⟩ (some ⟨⟨"f", false, 5⟩, "old"⟩) []
      = (.file ⟨⟨"f", false, 5⟩, "old"⟩, [])
  ∧ scanFile [8, 9] ⟨"f", false, 5⟩ (some ⟨⟨"f", false, 5⟩, "old"⟩) []
      = (.file ⟨⟨"f", false, 5⟩, "old"⟩, [])
  ∧ scanFile [7] ⟨"f", false, 6⟩ (some ⟨⟨"f", false, 5⟩, "old"⟩) []
      = (.file ⟨⟨"f", false, 6⟩, sha3hex [7]⟩, saveObject [] (sha3hex [7]) [7])
  ∧ scanFile [7] ⟨"f", false, 6⟩ none []
      = (.file ⟨⟨"f", false, 6⟩, sha3hex [7]⟩, saveObject [] (sha3hex [7]) [7]) := by
  refine ⟨?_, ?_, ?_, ?_⟩
  · exact (scan_file_spec ⟨"f", false, 5⟩ []).1 ⟨⟨"f", false, 5⟩, "old"⟩ [7] rfl
  · exact (scan_file_spec ⟨"f", false, 5⟩ []).1 ⟨⟨"f", false, 5⟩, "old"⟩ [8, 9] rfl
  · exact (scan_file_spec ⟨"f", false, 6⟩ []).2.1 ⟨⟨"f", false, 5⟩, "old"⟩ [7] (by decide)
  · exact (scan_file_spec ⟨"f", false, 6⟩ []).2.2 [7]

end Sbak

namespace Sbak

/-! ## C4 — which `.sbakignore` a pushed child frame carries -/

/-- A source tree with two ignore files: `t/.sbakignore` holding the pattern
text `a` and `t/sub/.sbakignore` holding the pattern text `b`. -/
def ignoreFs4 : List String → Option String :=
  fun p =>
    if p = ["t", ".sbakignore"] then some "a"
    else if p = ["t", "sub", ".sbakignore"] then some "b"
    else none

/-- The parse of the pattern text `a`. -/
def patsA : List Pattern := [⟨[.anyPath, .normal ⟨[.str "a"]⟩], false, false⟩]

/-- The parse of the pattern text `b`. -/
def patsB : List Pattern := [⟨[.anyPath, .normal ⟨[.str "b"]⟩], false, false⟩]

/-- C4: evaluation of `IgnoreStack::child` at a two-level tree.  The frame
pushed for the scan root `t` carries `t/.sbakignore`'s patterns, but the frame
pushed for the directory `t/sub` carries the patterns of `t/.sbakignore`
again — `self.root_path.join(".sbakignore")` reads the parent's ignore file —
even though `t/sub/.sbakignore` exists and parses to a different pattern set. -/
theorem ignore_stack_child_eval :
    (IgnoreStackM.new ["t"] []).child ignoreFs4 "t"
      = some (.ok (.frame ["t"] (IgnoreStackM.new ["t"] []) patsA))
  ∧ (IgnoreStackM.frame ["t"] (IgnoreStackM.new ["t"] []) patsA).child ignoreFs4 "sub"
      = some (.ok (.frame ["t", "sub"]
          (IgnoreStackM.frame ["t"] (IgnoreStackM.new ["t"] []) patsA) patsA))
  ∧ ignoreFs4 ["t", "sub", ".sbakignore"] = some "b"
  ∧ parseFileContents "b" = some (.ok patsB)
  ∧ patsA ≠ patsB := by
  refine ⟨by decide, by decide, by decide, by decide, by decide⟩

/-! ## C5 — the is-dir flag passed to the ignore query by `scan_dir` -/

/-- The parse of the directory-only cascade pattern `sub/`. -/
def dirOnlySubPat : Pattern := ⟨[.anyPath, .normal ⟨[.str "sub"]⟩], false, true⟩

/-- C5: evaluation of the scan-dir child filter under the pattern `sub/`
(directory-only).  The filter queries the ignore stack with
`fs::metadata(p).is_dir()` — the metadata of the scanned directory, always
true — so a plain file named `sub` is skipped; with the child's own is-dir
flag, as the claim states, the ignore query answers not-ignored and the file
is kept. -/
theorem scan_dir_is_dir_flag_eval :
    parsePattern "sub/" = some (.ok dirOnlySubPat)
  ∧ scanDirKeep (IgnoreStackM.new ["t"] [dirOnlySubPat]) ["t"] [⟨"sub", false⟩] = some []
  ∧ ignoredM (IgnoreStackM.new ["t"] [dirOnlySubPat]) ["t", "sub"] false = some false
  ∧ scanDirKeepSpec (IgnoreStackM.new ["t"] [dirOnlySubPat]) ["t"] [⟨"sub", false⟩]
      = some [⟨"sub", false⟩] := by
  refine ⟨by decide, by decide, by decide, by decide⟩

end Sbak

namespace Sbak

/-! ## C6 — id reinjection by `Bank::load_dir_entry` -/

/-- C6 counterexample: a stored directory-entry object parsed under the id
`"deadbeef"` comes back with `id == None` — `load_dir_entry` is a bare
`from_reader` and never calls `set_id`, and the serde `default` of the
skipped `id` field is `None` — so `entry.id() == Some(id)` fails. -/
theorem load_dir_entry_cex :
    loadDirEntry [("deadbeef", ⟨⟨"r", false, 0⟩, []⟩)] "deadbeef"
      = some ⟨none, ⟨"r", false, 0⟩, []⟩
  ∧ (⟨none, ⟨"r", false, 0⟩, []⟩ : DirEntry).id ≠ some "deadbeef" := by
  exact ⟨by decide, by decide⟩

/-- C6 (amended): for every id whose stored object parses as a directory
entry, `load_dir_entry` (and `load_root`) returns the parsed wire entry with
`e.id() == None`: the opened id is not reinjected. -/
theorem load_dir_entry_no_id :
    (∀ objects id e, loadDirEntry objects id = some e →
      e.id = none ∧ ∃ w, entryLookup objects id = some w ∧ e = decodeDirEntryWire w)
  ∧ (∀ objects h e, loadRoot objects h = some e → e.id = none) := by
  have main : ∀ objects id e, loadDirEntry objects id = some e →
      e.id = none ∧ ∃ w, entryLookup objects id = some w ∧ e = decodeDirEntryWire w := by
    intro objects id e h
    unfold loadDirEntry at h
    cases hw : entryLookup objects id with
    | none => rw [hw] at h; cases h
    | some w =>
      rw [hw] at h
      obtain rfl : decodeDirEntryWire w = e := Option.some.inj h
      exact ⟨rfl, w, rfl, rfl⟩
  exact ⟨main, fun objects hh e h => (main objects hh.id e h).1⟩

/-- Witness for C6 (amended) at a concrete one-object store. -/
theorem load_dir_entry_no_id_witness :
    (⟨none, ⟨"r", false, 0⟩, []⟩ : DirEntry).id = none :=
  (load_dir_entry_no_id.1 [("deadbeef", ⟨⟨"r", false, 0⟩, []⟩)] "deadbeef"
    ⟨none, ⟨"r", false, 0⟩, []⟩ (by decide)).1

/-! ## C7 — a trailing `**` component -/

/-- C7: evaluation of `match_path` on the pattern `a/**`.  The `AnyPath` loop
tries the drop counts `0 .. path.len() - 1` only, never the empty tail, so a
pattern whose component list ends in `**` matches no path at all: `a/**`
rejects `a`, `a/b` and `a/b/c`, and a lone `**` rejects the empty remainder. -/
theorem match_path_trailing_anyPath_eval :
    parsePattern "a/**" = some (.ok ⟨[.normal ⟨[.str "a"]⟩, .anyPath], false, false⟩)
  ∧ matchPath [.normal ⟨[.str "a"]⟩, .anyPath] ["a"] = false
  ∧ matchPath [.normal ⟨[.str "a"]⟩, .anyPath] ["a", "b"] = false
  ∧ matchPath [.normal ⟨[.str "a"]⟩, .anyPath] ["a", "b", "c"] = false
  ∧ matchPath [.anyPath] [] = false := by
  refine ⟨by decide, by decide, by decide, by decide, by decide⟩

/-! ## C8 — `extend_file` and the target's readonly flag -/

/-- C8: evaluation of `extend_file`.  Restoring a missing file from a
snapshot attribute with `readonly == true` and `modified == 5` leaves the
target writable (the `Permissions::set_readonly` result is never applied via
`fs::set_permissions`) while the modification time is set; an existing target
is skipped without overwrite permission, and an existing target with the
snapshot's timestamp is skipped under overwrite. -/
theorem extend_file_eval :
    extendFile (saveObject [] (sha3hex [0]) [0]) true [] ["x"] ⟨⟨"a", true, 5⟩, sha3hex [0]⟩
      = .ok [(["x"], ⟨[0], false, 5⟩)]
  ∧ extendFile [] false [(["x"], ⟨[9], true, 7⟩)] ["x"] ⟨⟨"a", true, 5⟩, "h1"⟩
      = .ok [(["x"], ⟨[9], true, 7⟩)]
  ∧ extendFile [] true [(["x"], ⟨[9], true, 5⟩)] ["x"] ⟨⟨"a", true, 5⟩, "h2"⟩
      = .ok [(["x"], ⟨[9], true, 5⟩)] := by
  refine ⟨?_, by decide, by decide⟩
  simp [extendFile, fsLookup, extendFileCopy, fsWrite,
    openObject_saveObject [] [0] (sha3hex [0]) rfl]

/-! ## C9 — history ordering and prefix search -/

/-- C9: `Bank::histories()` sorts the parsed records of the
`*.history.json` files ascending by the derived `(timestamp, id)` order, and
`find_hash` returns exactly the histories whose id starts with the given
string, as a sublist (hence in the same sorted order). -/
theorem histories_spec (files : List (String × History)) (pre : String) :
    List.Pairwise (fun a b => historyLe a b = true) (bankHistories files)
  ∧ (bankFindHash files pre).Sublist (bankHistories files)
  ∧ List.Pairwise (fun a b => historyLe a b = true) (bankFindHash files pre)
  ∧ (∀ h, h ∈ bankFindHash files pre ↔
      h ∈ bankHistories files ∧ h.id.startsWith pre = true)
  ∧ (∀ h, h ∈ bankHistories files ↔
      ∃ name, (name, h) ∈ files ∧ name.endsWith ".history.json" = true) := by
  have hsorted : List.Pairwise (fun a b => historyLe a b = true) (bankHistories files) :=
    List.sorted_mergeSort historyLe_trans historyLe_total _
  refine ⟨hsorted, List.filter_sublist _, ?_, ?_, ?_⟩
  · exact List.Pairwise.sublist (List.filter_sublist _) hsorted
  · intro h
    exact List.mem_filter
  · intro h
    unfold bankHistories
    rw [(List.mergeSort_perm _ historyLe).mem_iff]
    constructor
    · intro hm
      rcases List.mem_map.mp hm with ⟨⟨name, h2⟩, hmem, hsnd⟩
      rcases List.mem_filter.mp hmem with ⟨hin, hq⟩
      cases hsnd
      exact ⟨name, hin, hq⟩
    · rintro ⟨name, hin, hq⟩
      exact List.mem_map.mpr ⟨(name, h), List.mem_filter.mpr ⟨hin, hq⟩, rfl⟩

/-- Witness for C9 at a concrete three-file listing. -/
theorem histories_spec_witness :
    List.Pairwise (fun a b => historyLe a b = true)
      (bankHistories [("5.history.json", ⟨5, "aa"⟩), ("3.history.json", ⟨3, "bb"⟩),
        ("last_scan.json", ⟨1, "cc"⟩)])
  ∧ (bankFindHash [("5.history.json", ⟨5, "aa"⟩), ("3.history.json", ⟨3, "bb"⟩),
        ("last_scan.json", ⟨1, "cc"⟩)] "a").Sublist
      (bankHistories [("5.history.json", ⟨5, "aa"⟩), ("3.history.json", ⟨3, "bb"⟩),
        ("last_scan.json", ⟨1, "cc"⟩)]) := by
  have h := histories_spec [("5.history.json", ⟨5, "aa"⟩), ("3.history.json", ⟨3, "bb"⟩),
    ("last_scan.json", ⟨1, "cc"⟩)] "a"
  exact ⟨h.1, h.2.1⟩

/-! ## C10 — comment and blank-line handling of the pattern parser -/

/-- C10: in `parse`, a line is skipped as a comment exactly when its first
character after trimming leading whitespace is `#` (so whitespace may precede
the marker); only the exactly-empty line is skipped as blank, and any other
line — a whitespace-only line in particular — is handed to `parse_pattern`. -/
theorem parse_line_skip_spec :
    (∀ line, isCommentLine line = true → parseLines [line] = some (.ok []))
  ∧ parseLines [""] = some (.ok [])
  ∧ (∀ line, isCommentLine line = false → line ≠ "" →
      parseLines [line] = (parsePattern line).map (Except.map (fun p => [p])))
  ∧ isCommentLine "  # c" = true
  ∧ isCommentLine " " = false
  ∧ parseLines [" "] = some (.ok [⟨[.anyPath, .normal ⟨[.str " "]⟩], false, false⟩]) := by
  refine ⟨?_, by decide, ?_, by decide, by decide, by decide⟩
  · intro line h
    simp [parseLines, h]
  · intro line h1 h2
    simp only [parseLines, h1, Bool.false_eq_true, if_false, h2, ite_false]
    cases hp : parsePattern line with
    | none => simp
    | some r =>
      cases r with
      | error e => rfl
      | ok p => rfl

/-- Witness for C10: a whitespace-led comment line is skipped; a plain line is
parsed as a pattern. -/
theorem parse_line_skip_spec_witness :
    parseLines ["  # note"] = some (.ok [])
  ∧ parseLines ["x"] = (parsePattern "x").map (Except.map (fun p => [p])) := by
  exact ⟨parse_line_skip_spec.1 "  # note" (by decide),
    (parse_line_skip_spec.2.2.1 : ∀ line, _) "x" (by decide) (by decide)⟩

end Sbak
